import Mathlib

/-!
Verification of the Chasma terrain streaming core.

This file shallowly embeds the Rust sources of the repository
(`src/heightmap_data.rs`, `src/terrain/lod.rs`, `src/terrain/async_chunk_loader.rs`,
`src/props/core.rs`, `src/props/plugin.rs`) in Lean and proves or refutes the
claims of the specification against that embedding.

Modelling conventions:
* `f32` values are modelled as `ℚ`; every arithmetic operation the claims
  depend on (comparison with literal thresholds, floor, clamp, linear blends
  on exactly representable inputs) is exact in both `f32` and `ℚ` at the
  inputs used by the theorems.
* `i32` is modelled as `ℤ`, with explicit two's-complement wrapping
  (`% 2^32` recentered) wherever the Rust code performs an `as` cast or
  wrapping arithmetic whose overflow behaviour matters.
* `u16`/`u8`/`u32`/`usize` are modelled as `ℕ` (with `% 2^32` at u32
  overflow points).
* Fallible operations return `Option`; a `none` from `Tile16.get_clamped`
  models a Rust panic (failed `clamp` assertion or out-of-bounds index).
* The filesystem is a pure map `FS : String → Option (List ℕ)` from path to
  byte content; `HashMap`s are association lists with `HashMap` semantics
  (`alookup`/`aerase`/`ainsert`).
-/

/-- Interpretation of a `u32` bit pattern as an `i32` (the Rust `as i32` cast:
two's-complement wrap). -/
def i32ofU32 (n : ℕ) : ℤ :=
  if n % 2 ^ 32 < 2 ^ 31 then ((n % 2 ^ 32 : ℕ) : ℤ) else ((n % 2 ^ 32 : ℕ) : ℤ) - 2 ^ 32

/-- Wrap an integer into the `i32` range (two's complement), modelling release-mode
wrapping arithmetic on `i32`. -/
def i32wrap (z : ℤ) : ℤ := (z + 2 ^ 31) % 2 ^ 32 - 2 ^ 31

/-- Rust `f32::round`: round half away from zero. -/
def rustRound (q : ℚ) : ℤ := if 0 ≤ q then ⌊q + 1 / 2⌋ else -⌊-q + 1 / 2⌋

/-- Rust `f32::clamp(lo, hi)` result (caller must separately ensure `lo ≤ hi`,
otherwise Rust panics; the one call site where that matters models the panic
explicitly). -/
def rclamp (x lo hi : ℚ) : ℚ := min (max x lo) hi

/-- Chunk/tile lattice key `(cx, cz)`, Rust `(i32, i32)`. -/
abbrev Key := ℤ × ℤ

/-- Association-list lookup with `HashMap::get` semantics. -/
def alookup {β : Type} (k : Key) : List (Key × β) → Option β
  | [] => none
  | (k', v) :: rest => if k' = k then some v else alookup k rest

/-- Association-list removal with `HashMap::remove` semantics (keys are unique
in a `HashMap`, so removing the first hit removes the key). -/
def aerase {β : Type} (k : Key) : List (Key × β) → List (Key × β)
  | [] => []
  | (k', v) :: rest => if k' = k then rest else (k', v) :: aerase k rest

/-- Association-list insertion with `HashMap::insert` semantics (replace any
existing entry for the key). -/
def ainsert {β : Type} (k : Key) (v : β) (l : List (Key × β)) : List (Key × β) :=
  (k, v) :: aerase k l

/-- A single 16-bit RAW tile in memory (`Tile16` in `heightmap_data.rs`).
`res_x`/`res_y` are the `u32` components of `res : UVec2`; `data` is the
row-major sample buffer (the `Arc` only shares the buffer and is dropped
from the model). -/
structure Tile16 where
  res_x : ℕ
  res_y : ℕ
  data : List ℕ
deriving DecidableEq

/-- Tile16::get_clamped from `heightmap_data.rs` lines 49-55:
`x.clamp(0, self.res.x as i32 - 1)` and the row-major index
`(yi * self.res.x + xi) as usize`. A `none` result models a panic: either the
`clamp` assertion `min <= max` fails (when `res.x as i32 - 1` is negative,
i.e. `res.x = 0` or `res.x > 2^31`), or the buffer index is out of bounds.
`i32` casts wrap; the `u32` index arithmetic wraps at `2^32`. -/
def Tile16.get_clamped (t : Tile16) (x y : ℤ) : Option ℕ :=
  let mx := i32wrap (i32ofU32 t.res_x - 1)
  let my := i32wrap (i32ofU32 t.res_y - 1)
  if mx < 0 ∨ my < 0 then none
  else
    let xi := (min (max x 0) mx).toNat
    let yi := (min (max y 0) my).toNat
    t.data.get? ((yi * (t.res_x % 2 ^ 32) + xi) % 2 ^ 32)

/-- Total view of `get_clamped` used inside the samplers: on the well-formed
tiles all sampler theorems quantify over, `get_clamped` never returns `none`
(no panic), so defaulting to `0` is never observed there. -/
def Tile16.gc (t : Tile16) (x y : ℤ) : ℕ := (t.get_clamped x y).getD 0

/-- Byte content of the filesystem, path → bytes. `none` is a missing file or
an IO error on open/metadata. -/
abbrev FS := String → Option (List ℕ)

/-- Cache and IO config for RAW tiles (`HeightTileCache` in
`heightmap_data.rs`). `fname_pre`/`fname_ext` are the source's filename
prefix and extension fields. -/
structure HeightTileCache where
  tiles : List (Key × Tile16)
  folder : String
  tile_res_x : ℕ
  tile_res_y : ℕ
  fname_pre : String
  fname_ext : String
deriving DecidableEq

/-- HeightTileCache::tile_path: `{prefix}_y{z}_x{x}{ext}` joined under the
folder. -/
def tile_path (c : HeightTileCache) (cx cz : ℤ) : String :=
  c.folder ++ "/" ++ c.fname_pre ++ "_y" ++ toString cz ++ "_x" ++ toString cx ++ c.fname_ext

/-- Little-endian `u16` decoding of a byte stream, row-major
(`u16::from_le_bytes([lo, hi])` over consecutive pairs). Bytes are reduced
`% 256` to the `u8` domain. -/
def decode_le16 : List ℕ → List ℕ
  | lo :: hi :: rest => (lo % 256 + 256 * (hi % 256)) :: decode_le16 rest
  | _ => []

/-- HeightTileCache::load_raw16: open the file, check that it holds at least
`width*height*2` bytes, read exactly that many and decode them. Any failure
is `none`. -/
def load_raw16 (c : HeightTileCache) (fs : FS) (path : String) : Option Tile16 :=
  let expected_pixels := c.tile_res_x * c.tile_res_y
  let expected_bytes := expected_pixels * 2
  match fs path with
  | none => none
  | some bytes =>
    if bytes.length < expected_bytes then none
    else some ⟨c.tile_res_x, c.tile_res_y, decode_le16 (bytes.take expected_bytes)⟩

/-- HeightTileCache::get_or_load: on a hit return the cached tile; on a miss
attempt the load, inserting into the cache only on success. -/
def get_or_load (c : HeightTileCache) (fs : FS) (cx cz : ℤ) :
    Option Tile16 × HeightTileCache :=
  match alookup (cx, cz) c.tiles with
  | some t => (some t, c)
  | none =>
    match load_raw16 c fs (tile_path c cx cz) with
    | none => (none, c)
    | some t => (some t, { c with tiles := ((cx, cz), t) :: c.tiles })

/-- HeightTileCache::fetch_tile: public API, a cloned (`Arc`-backed) snapshot of
`get_or_load`'s result. -/
def fetch_tile (c : HeightTileCache) (fs : FS) (cx cz : ℤ) :
    Option Tile16 × HeightTileCache :=
  get_or_load c fs cx cz

/-- Global terrain metadata (`HeightmapData` in `heightmap_data.rs`), fields
flattened to scalars: `size`, `origin`, `chunk_size` are `Vec2`s in the
source. -/
structure HeightmapData where
  size_x : ℚ
  size_y : ℚ
  origin_x : ℚ
  origin_y : ℚ
  height_scale : ℚ
  chunk_x : ℚ
  chunk_y : ℚ
  rmin : ℚ
  rmax : ℚ
  flip_v : Bool
deriving DecidableEq

/-- Bilinear sampling inside one fetched tile: lines 168-206 of
`heightmap_data.rs` (normalized UV from the in-chunk position, four clamped
integer samples, bilinear blend in raw space, normalization by `raw_minmax`,
scale by `height_scale`). -/
def sample_in_tile (data : HeightmapData) (tile : Tile16) (local_x local_z : ℚ) : ℚ :=
  let u := rclamp (local_x / data.chunk_x) 0 1
  let v := rclamp (local_z / data.chunk_y) 0 1
  let max_x := i32ofU32 (tile.res_x - 1)
  let max_y := i32ofU32 (tile.res_y - 1)
  let px_f := u * (max_x : ℚ)
  let py_f := v * (max_y : ℚ)
  let x0 := ⌊px_f⌋
  let y0 := ⌊py_f⌋
  let x1 := min (x0 + 1) max_x
  let y1 := min (y0 + 1) max_y
  let dx := px_f - (x0 : ℚ)
  let dy := py_f - (y0 : ℚ)
  let s00 := (tile.gc x0 y0 : ℚ)
  let s10 := (tile.gc x1 y0 : ℚ)
  let s01 := (tile.gc x0 y1 : ℚ)
  let s11 := (tile.gc x1 y1 : ℚ)
  let a := s00 * (1 - dx) + s10 * dx
  let b := s01 * (1 - dx) + s11 * dx
  let raw := a * (1 - dy) + b * dy
  let norm := if data.rmin < data.rmax then rclamp ((raw - data.rmin) / (data.rmax - data.rmin)) 0 1 else 0
  norm * data.height_scale

/-- Shared tail of the sampler (lines 157-206 of `heightmap_data.rs`): given
the in-bounds local coordinates, compute the chunk indices by floored
division, the in-chunk remainder, fetch the chunk's tile and bilinearly
sample it. -/
def sample_local (data : HeightmapData) (cache : HeightTileCache) (fs : FS)
    (lx lz : ℚ) : Option ℚ × HeightTileCache :=
  let cx := ⌊lx / data.chunk_x⌋
  let cz := ⌊lz / data.chunk_y⌋
  let local_x := lx - (cx : ℚ) * data.chunk_x
  let local_z := lz - (cz : ℚ) * data.chunk_y
  match fetch_tile cache fs cx cz with
  | (none, c1) => (none, c1)
  | (some tile, c1) => (some (sample_in_tile data tile local_x local_z), c1)

/-- Free function `sample_height` from `heightmap_data.rs` lines 137-207:
translate to local coordinates, bounds check, optional V flip
(`if data.flip_v { lz = data.size.y - lz; }`), then chunk localization and
bilinear sampling (`sample_local`). Returns the sampled height together with
the threaded cache. -/
def sample_height (world_x world_z : ℚ) (data : HeightmapData)
    (cache : HeightTileCache) (fs : FS) : Option ℚ × HeightTileCache :=
  let lx := world_x - data.origin_x
  let lz0 := world_z - data.origin_y
  if lx < 0 ∨ lz0 < 0 ∨ data.size_x ≤ lx ∨ data.size_y ≤ lz0 then (none, cache)
  else
    let lz := if data.flip_v then data.size_y - lz0 else lz0
    sample_local data cache fs lx lz

/-- The sampler exactly as claim C5 words it (spec §4.2): local coordinates by
subtracting the origin, `none` outside `[0, worldSize)`, chunk indices by
floored division of the local coordinates, in-chunk position the remainder of
that division, then the same bilinear sampling. It differs from the source
`sample_height` only in never flipping the Z coordinate. -/
def sample_height_claim (world_x world_z : ℚ) (data : HeightmapData)
    (cache : HeightTileCache) (fs : FS) : Option ℚ × HeightTileCache :=
  let lx := world_x - data.origin_x
  let lz := world_z - data.origin_y
  if lx < 0 ∨ lz < 0 ∨ data.size_x ≤ lx ∨ data.size_y ≤ lz then (none, cache)
  else sample_local data cache fs lx lz

/-- LoD tiers (`LodLevel` in `terrain/lod.rs`). -/
inductive LodLevel
  | Near
  | Mid
  | Far
deriving DecidableEq

/-- LodLevel::grid_res: vertex grid per tier (odd counts so edges line up). -/
def LodLevel.grid_res : LodLevel → ℕ × ℕ
  | .Near => (129, 129)
  | .Mid => (65, 65)
  | .Far => (33, 33)

/-- LodLevel::pick: distance thresholds to LoD. -/
def LodLevel.pick (distance : ℚ) : LodLevel :=
  if distance < 600 then .Near
  else if distance < 1200 then .Mid
  else .Far

/-- Detail rank under the order Near < Mid < Far (Near is most detailed,
rank 0). -/
def LodLevel.rank : LodLevel → ℕ
  | .Near => 0
  | .Mid => 1
  | .Far => 2

/-- A triangle mesh: positions/normals/uvs per vertex plus a `u32` index
list, the four attributes the builder inserts into a Bevy `Mesh`. -/
structure Mesh where
  positions : List (ℚ × ℚ × ℚ)
  normals : List (ℚ × ℚ × ℚ)
  uvs : List (ℚ × ℚ)
  indices : List ℕ
deriving DecidableEq, Inhabited

/-- Modelled from the spec: `chunk_origin_world` is imported by
`async_chunk_loader.rs` from `terrain/chunking.rs`, but the copy of that file
under `src/` predates the import and lacks the function. Per spec §3/§6 and
the identical inline computation in `async_receive_chunks` (lines 223-226),
a chunk's world origin is the terrain origin plus the chunk index times the
per-chunk world size. -/
def chunk_origin_world (cx cz : ℤ) (data : HeightmapData) : ℚ × ℚ :=
  (data.origin_x + (cx : ℚ) * data.chunk_x, data.origin_y + (cz : ℚ) * data.chunk_y)

/-- Modelled from the spec: `chunk_world_aabb` is likewise missing from the
`src/` copy of `terrain/chunking.rs`; per spec §3 (ChunkRecord world-space
bounds) and the footprint computation in `async_receive_chunks`, the AABB of
a chunk is `[origin, origin + chunk_size]` in world XZ. -/
def chunk_world_aabb (cx cz : ℤ) (data : HeightmapData) : (ℚ × ℚ) × (ℚ × ℚ) :=
  let o := chunk_origin_world cx cz data
  (o, (o.1 + data.chunk_x, o.2 + data.chunk_y))

/-- Rust `f32::EPSILON`, used by the normal estimation to avoid division by a
zero chunk extent. -/
def f32Epsilon : ℚ := 1 / 2 ^ 23

/-- The `sample_raw` closure of `build_chunk_mesh_from_tiles`
(`async_chunk_loader.rs` lines 264-304): seam-aware raw sampling. The
rightmost column reads the neighbor-right tile's first column at the
nearest-rounded row, the topmost row reads the neighbor-up tile's first row,
the single top-right corner reads the neighbor-up-right tile's corner; in
each case an absent neighbor falls through to clamped bilinear sampling of
the chunk's own tile. -/
def chunkSampleRaw (nx nz : ℕ) (cur : Tile16) (right up up_right : Option Tile16)
    (u v : ℚ) (i j : ℕ) : ℚ :=
  let tx_max := i32ofU32 (cur.res_x - 1)
  let tz_max := i32ofU32 (cur.res_y - 1)
  let u := rclamp u 0 1
  let v := rclamp v 0 1
  let bilin : ℚ :=
    let px_f := u * (tx_max : ℚ)
    let pz_f := v * (tz_max : ℚ)
    let x0 := ⌊px_f⌋
    let z0 := ⌊pz_f⌋
    let x1 := min (x0 + 1) tx_max
    let z1 := min (z0 + 1) tz_max
    let dx := px_f - (x0 : ℚ)
    let dz := pz_f - (z0 : ℚ)
    let s00 := (cur.gc x0 z0 : ℚ)
    let s10 := (cur.gc x1 z0 : ℚ)
    let s01 := (cur.gc x0 z1 : ℚ)
    let s11 := (cur.gc x1 z1 : ℚ)
    let a := s00 * (1 - dx) + s10 * dx
    let b := s01 * (1 - dx) + s11 * dx
    a * (1 - dz) + b * dz
  if i = nx - 1 ∧ j = nz - 1 then
    match up_right with
    | some t => (t.gc 0 0 : ℚ)
    | none => bilin
  else if i = nx - 1 then
    match right with
    | some t => (t.gc 0 (rustRound (v * (tz_max : ℚ))) : ℚ)
    | none => bilin
  else if j = nz - 1 then
    match up with
    | some t => (t.gc (rustRound (u * (tx_max : ℚ))) 0 : ℚ)
    | none => bilin
  else bilin

/-- The `sample_h` closure (lines 307-311): normalize the raw sample into
`[0,1]` by `raw_minmax` (with `inv_span = 0` when the range is degenerate)
and scale by `height_scale`. -/
def chunkSampleH (data : HeightmapData) (nx nz : ℕ) (cur : Tile16)
    (right up up_right : Option Tile16) (u v : ℚ) (i j : ℕ) : ℚ :=
  let inv_span := if data.rmin < data.rmax then 1 / (data.rmax - data.rmin) else 0
  let raw := chunkSampleRaw nx nz cur right up up_right u v i j
  rclamp ((raw - data.rmin) * inv_span) 0 1 * data.height_scale

/-- Vertex position of grid cell `(i, j)` (lines 321-339): normalized UV and
the seam-aware height over the chunk's world footprint. -/
def chunkVertexPos (cx cz : ℤ) (nx nz : ℕ) (data : HeightmapData) (cur : Tile16)
    (right up up_right : Option Tile16) (i j : ℕ) : ℚ × ℚ × ℚ :=
  let min_w := (chunk_world_aabb cx cz data).1
  let max_w := (chunk_world_aabb cx cz data).2
  let width := max_w.1 - min_w.1
  let depth := max_w.2 - min_w.2
  let u := (i : ℚ) / ((nx : ℚ) - 1)
  let v := (j : ℚ) / ((nz : ℚ) - 1)
  (min_w.1 + u * width, chunkSampleH data nx nz cur right up up_right u v i j,
    min_w.2 + v * depth)

/-- Vertex normal of grid cell `(i, j)` (lines 330-343): central finite
differences of the seam-aware height one grid step away, converted to
world-space slope, then normalized. `normalize` abstracts
`Vec3::normalize_or_zero`, whose square root is not `ℚ`-representable; no
claim constrains normal values. -/
def chunkVertexNormal (cx cz : ℤ) (nx nz : ℕ) (data : HeightmapData) (cur : Tile16)
    (right up up_right : Option Tile16)
    (normalize : ℚ × ℚ × ℚ → ℚ × ℚ × ℚ) (i j : ℕ) : ℚ × ℚ × ℚ :=
  let min_w := (chunk_world_aabb cx cz data).1
  let max_w := (chunk_world_aabb cx cz data).2
  let width := max_w.1 - min_w.1
  let depth := max_w.2 - min_w.2
  let u := (i : ℚ) / ((nx : ℚ) - 1)
  let v := (j : ℚ) / ((nz : ℚ) - 1)
  let du := if 1 < nx then 1 / ((nx : ℚ) - 1) else 1
  let dv := if 1 < nz then 1 / ((nz : ℚ) - 1) else 1
  let hl := chunkSampleH data nx nz cur right up up_right (max (u - du) 0) v (i - 1) j
  let hr := chunkSampleH data nx nz cur right up up_right (min (u + du) 1) v (min (i + 1) (nx - 1)) j
  let hd := chunkSampleH data nx nz cur right up up_right u (max (v - dv) 0) i (j - 1)
  let hu := chunkSampleH data nx nz cur right up up_right u (min (v + dv) 1) i (min (j + 1) (nz - 1))
  let dpx := (hr - hl) / (2 * du * max width f32Epsilon)
  let dpz := (hu - hd) / (2 * dv * max depth f32Epsilon)
  normalize (-dpx, 1, -dpz)

/-- Function `build_chunk_mesh_from_tiles` (`async_chunk_loader.rs` lines
238-364): grid resolution clamped to at least 2, seam-aware vertex heights,
per-vertex normals and UVs, two fixed-winding triangles per grid cell. The
source has no failing path: the result is always `some`. -/
def build_chunk_mesh_from_tiles (cx cz : ℤ) (grid : ℕ × ℕ) (data : HeightmapData)
    (cur : Tile16) (right up up_right : Option Tile16)
    (normalize : ℚ × ℚ × ℚ → ℚ × ℚ × ℚ) : Option Mesh :=
  let nx := max grid.1 2
  let nz := max grid.2 2
  some
    { positions := (List.range nz).flatMap fun j => (List.range nx).map fun i =>
        chunkVertexPos cx cz nx nz data cur right up up_right i j
      normals := (List.range nz).flatMap fun j => (List.range nx).map fun i =>
        chunkVertexNormal cx cz nx nz data cur right up up_right normalize i j
      uvs := (List.range nz).flatMap fun j => (List.range nx).map fun i =>
        ((i : ℚ) / ((nx : ℚ) - 1), (j : ℚ) / ((nz : ℚ) - 1))
      indices := (List.range (nz - 1)).flatMap fun j => (List.range (nx - 1)).flatMap fun i =>
        [j * nx + i, (j + 1) * nx + i, j * nx + i + 1,
         j * nx + i + 1, (j + 1) * nx + i, (j + 1) * nx + i + 1] }

/-- Function `debug_fallback_quad` (lines 366-387): a flat single quad over the
chunk's world footprint with upward normals. -/
def debug_fallback_quad (cx cz : ℤ) (data : HeightmapData) : Mesh :=
  let min_w := (chunk_world_aabb cx cz data).1
  let max_w := (chunk_world_aabb cx cz data).2
  let width := max_w.1 - min_w.1
  let depth := max_w.2 - min_w.2
  { positions := [(min_w.1, 0, min_w.2), (min_w.1 + width, 0, min_w.2),
                  (min_w.1, 0, min_w.2 + depth), (min_w.1 + width, 0, min_w.2 + depth)]
    normals := List.replicate 4 (0, 1, 0)
    uvs := [(0, 0), (1, 0), (0, 1), (1, 1)]
    indices := [0, 2, 1, 1, 2, 3] }

/-- The body of the async build job (lines 139-142):
`build_chunk_mesh_from_tiles(..).unwrap_or_else(|| debug_fallback_quad(..))`. -/
def build_mesh_or_fallback (cx cz : ℤ) (grid : ℕ × ℕ) (data : HeightmapData)
    (cur : Tile16) (right up up_right : Option Tile16)
    (normalize : ℚ × ℚ × ℚ → ℚ × ℚ × ℚ) : Mesh :=
  (build_chunk_mesh_from_tiles cx cz grid data cur right up up_right normalize).getD
    (debug_fallback_quad cx cz data)

/-- Default body of `SlopeSampler::sample_normal` (`props/core.rs` line 151):
`{ let _ = (x, z); None }`. -/
def slope_sampler_sample_normal_default (x z : ℚ) : Option (ℚ × ℚ × ℚ) :=
  let _ := (x, z)
  none

/-- Default body of `SlopeSampler::slope_deg` (`props/core.rs` line 153):
`{ let _ = (x, z); None }`. -/
def slope_sampler_slope_deg_default (x z : ℚ) : Option ℚ :=
  let _ := (x, z)
  none

/-- Chunk task metadata (`ChunkTaskInfo` in `async_chunk_loader.rs`). -/
structure ChunkTaskInfo where
  cx : ℤ
  cz : ℤ
  lod : LodLevel
deriving DecidableEq

/-- An in-flight or finished build job: its metadata plus the mesh the pure
build closure produces. Storing the (deterministically computed) result at
admission models the `Task<Mesh>` whose eventual value is fixed by the
snapshot it owns. -/
abbrev BuildTask := ChunkTaskInfo × Mesh

/-- The triple a task is deduplicated on. -/
def taskKey (t : BuildTask) : ℤ × ℤ × LodLevel := (t.1.cx, t.1.cz, t.1.lod)

/-- The chunk key of a task. -/
def taskChunk (t : BuildTask) : Key := (t.1.cx, t.1.cz)

/-- Lifecycle events published for the props systems
(`TerrainChunkLoaded(ChunkArea)` / `TerrainChunkUnloaded(ChunkCoord)` in
`props/plugin.rs` lines 48-51). -/
inductive TerrainEvent
  | loaded (coord : Key) (min_xz max_xz : ℚ × ℚ)
  | unloaded (coord : Key)
deriving DecidableEq

/-- Whether an event is a `TerrainChunkUnloaded`. -/
def TerrainEvent.isUnloaded : TerrainEvent → Bool
  | .unloaded _ => true
  | _ => false

/-- Mutable scheduler state: the `ChunkManager.loaded` map
(key → (entity, LoD)) and the `AsyncChunkLoader`'s `tasks` and `pending`
lists. The desired set is recomputed from scratch every pass (Step 1) and is
passed to the pass as an input below. -/
structure SchedState where
  loaded : List (Key × (ℕ × LodLevel))
  tasks : List BuildTask
  pending : List BuildTask
deriving Inhabited

/-- Result of one `async_schedule_chunks` pass: the new state, the threaded
tile cache, and the keys whose entities were despawned in Step 2 (the source
emits no event there; the despawn itself is the only observable). -/
structure SchedResult where
  loaded : List (Key × (ℕ × LodLevel))
  tasks : List BuildTask
  pending : List BuildTask
  cache : HeightTileCache
  removed : List Key

/-- One iteration of Step 2 (lines 85-103): look up the loaded and desired
LoD for a key, and if the chunk is no longer desired or its LoD mismatches,
despawn it, remove it from `loaded`, and drop every queued or finished job
for that chunk key. -/
def reconcileStep (desired : List (Key × LodLevel)) (st : SchedResult) (key : Key) :
    SchedResult :=
  let loaded_lod := (alookup key st.loaded).map Prod.snd
  let desired_lod := alookup key desired
  let should_remove : Bool :=
    match loaded_lod, desired_lod with
    | some ll, some dl => decide (ll ≠ dl)
    | some _, none => true
    | _, _ => false
  if should_remove then
    { st with
      loaded := aerase key st.loaded
      tasks := st.tasks.filter fun t => ¬(t.1.cx = key.1 ∧ t.1.cz = key.2)
      pending := st.pending.filter fun t => ¬(t.1.cx = key.1 ∧ t.1.cz = key.2)
      removed := st.removed ++ [key] }
  else st

/-- Step 2 of `async_schedule_chunks`: fold `reconcileStep` over the loaded
keys collected before the loop. -/
def reconcile (desired : List (Key × LodLevel)) (cache : HeightTileCache)
    (st : SchedState) : SchedResult :=
  (st.loaded.map Prod.fst).foldl (reconcileStep desired)
    { loaded := st.loaded, tasks := st.tasks, pending := st.pending,
      cache := cache, removed := [] }

/-- Step 3 of `async_schedule_chunks` (lines 105-147): walk the desired set;
skip keys already loaded at the desired LoD and keys already queued (in
`tasks` or `pending`) at the same `(cx, cz, lod)`; stop the whole loop when
the creation budget is exhausted (`break 'launch`); otherwise snapshot the
four tiles (threading the cache), skip if the chunk's own tile is
unavailable, and else push a new task whose value is the pure build result.
Arguments after the fixed context: remaining desired entries, accumulated
task list, threaded cache, jobs started this pass. -/
def admitGo (normalize : ℚ × ℚ × ℚ → ℚ × ℚ × ℚ) (fs : FS) (data : HeightmapData)
    (loaded : List (Key × (ℕ × LodLevel))) (pending : List BuildTask) (budget : ℕ) :
    List (Key × LodLevel) → List BuildTask → HeightTileCache → ℕ →
      List BuildTask × HeightTileCache
  | [], ts, c, _ => (ts, c)
  | ((cx, cz), lod) :: rest, ts, c, started =>
    if (match alookup (cx, cz) loaded with
        | some (_, current_lod) => decide (current_lod = lod)
        | none => false) then
      admitGo normalize fs data loaded pending budget rest ts c started
    else if (ts.any fun t => decide (t.1.cx = cx ∧ t.1.cz = cz ∧ t.1.lod = lod)) ||
            (pending.any fun t => decide (t.1.cx = cx ∧ t.1.cz = cz ∧ t.1.lod = lod)) then
      admitGo normalize fs data loaded pending budget rest ts c started
    else if budget ≤ started then
      (ts, c)
    else
      let rc := fetch_tile c fs cx cz
      let rr := fetch_tile rc.2 fs (cx + 1) cz
      let ru := fetch_tile rr.2 fs cx (cz + 1)
      let rur := fetch_tile ru.2 fs (cx + 1) (cz + 1)
      match rc.1 with
      | none => admitGo normalize fs data loaded pending budget rest ts rur.2 started
      | some cur =>
        let mesh := build_mesh_or_fallback cx cz lod.grid_res data cur rr.1 ru.1 rur.1 normalize
        admitGo normalize fs data loaded pending budget rest
          (ts ++ [(⟨cx, cz, lod⟩, mesh)]) rur.2 (started + 1)

/-- Vec::swap_remove(i): replace element `i` with the last element and pop. -/
def swapRemove {α : Type} (l : List α) (i : ℕ) : List α :=
  match l.getLast? with
  | none => []
  | some a => (l.set i a).dropLast

/-- Step 4 of `async_schedule_chunks` (lines 149-160): scan the task list with
a cursor; a ready task is appended to `pending` and swap-removed (without
advancing the cursor), otherwise the cursor advances. `ready` abstracts
`check_ready` on the `Task`. Each loop iteration strictly decreases
`tasks.length - i`, so fuel `tasks.length` (passed by `pollTasks`) is
exact: the fuel-exhausted branch is unreachable. -/
def pollGo (ready : BuildTask → Bool) :
    ℕ → List BuildTask → List BuildTask → ℕ → List BuildTask × List BuildTask
  | 0, ts, ps, _ => (ts, ps)
  | fuel + 1, ts, ps, i =>
    if h : i < ts.length then
      let t := ts.get ⟨i, h⟩
      if ready t then pollGo ready fuel (swapRemove ts i) (ps ++ [t]) i
      else pollGo ready fuel ts ps (i + 1)
    else (ts, ps)

/-- Step 4 entry point. -/
def pollTasks (ready : BuildTask → Bool) (ts ps : List BuildTask) :
    List BuildTask × List BuildTask :=
  pollGo ready ts.length ts ps 0

/-- One full `async_schedule_chunks` pass: Step 1 (desired-set computation,
lines 64-80) is represented by the `desired` argument — the source rebuilds
`chunk_mgr.desired` from `needed_chunks_around` (a helper missing from the
`src/` copy of `terrain/chunking.rs`) as a `HashMap` keyed by chunk key, so
`desired` here is any association list with unique keys — followed by
Step 2 (reconcile), Step 3 (admission) and Step 4 (polling) in source
order. -/
def schedulePass (normalize : ℚ × ℚ × ℚ → ℚ × ℚ × ℚ) (fs : FS) (data : HeightmapData)
    (desired : List (Key × LodLevel)) (budget : ℕ) (ready : BuildTask → Bool)
    (cache : HeightTileCache) (st : SchedState) : SchedResult :=
  let r := reconcile desired cache st
  let a := admitGo normalize fs data r.loaded r.pending budget desired r.tasks r.cache 0
  let p := pollTasks ready a.1 r.pending
  { loaded := r.loaded, tasks := p.1, pending := p.2, cache := a.2, removed := r.removed }

/-- The integration loop of `async_receive_chunks` (lines 175-233): while the
pending queue is non-empty and the budget is not exhausted, remove the front
entry (the cursor `i` is never incremented, so `remove(i)` always removes
index 0), spawn the chunk entity, record it in `ChunkManager.loaded`, and
emit one `TerrainChunkLoaded` with the chunk's world footprint. `ent` is the
next fresh entity id. Returns (remaining pending, loaded, next id, events in
emission order). -/
def receiveGo (data : HeightmapData) :
    ℕ → List BuildTask → List (Key × (ℕ × LodLevel)) → ℕ →
      List BuildTask × List (Key × (ℕ × LodLevel)) × ℕ × List TerrainEvent
  | 0, ps, loaded, ent => (ps, loaded, ent, [])
  | _ + 1, [], loaded, ent => ([], loaded, ent, [])
  | k + 1, (info, _mesh) :: rest, loaded, ent =>
    let key : Key := (info.cx, info.cz)
    let loaded' := ainsert key (ent, info.lod) loaded
    let min_x := data.origin_x + (info.cx : ℚ) * data.chunk_x
    let min_z := data.origin_y + (info.cz : ℚ) * data.chunk_y
    let max_x := min_x + data.chunk_x
    let max_z := min_z + data.chunk_y
    let r := receiveGo data k rest loaded' (ent + 1)
    (r.1, r.2.1, r.2.2.1, .loaded key (min_x, min_z) (max_x, max_z) :: r.2.2.2)

/-- `async_receive_chunks`: integrate up to `IntegrationBudget` finished
meshes and emit `TerrainChunkLoaded` for each. -/
def async_receive_chunks (data : HeightmapData) (budget : ℕ) (pending : List BuildTask)
    (loaded : List (Key × (ℕ × LodLevel))) (ent : ℕ) :
    List BuildTask × List (Key × (ℕ × LodLevel)) × ℕ × List TerrainEvent :=
  receiveGo data budget pending loaded ent

/-! Concrete configurations used by the counterexamples and witnesses below. -/

/-- A tile whose `u32` resolution exceeds `i32::MAX`: `res.x as i32` wraps to a
negative value, so `get_clamped`'s `clamp(0, res.x as i32 - 1)` has
`min > max` and panics. -/
def overflowTile : Tile16 := ⟨2 ^ 31 + 1, 1, List.replicate (2 ^ 31 + 1) 0⟩

/-- A small well-formed 2×2 tile. -/
def witTile : Tile16 := ⟨2, 2, [1, 2, 3, 4]⟩

/-- A 1×1 tile holding the maximal raw sample. -/
def oneTile : Tile16 := ⟨1, 1, [65535]⟩

/-- An empty filesystem: every open fails. -/
def fsEmpty : FS := fun _ => none

/-- A filesystem holding exactly one valid 1×1 RAW16 tile file for chunk key
`(0,0)` under the `exCache` naming convention, sample value 5. -/
def fsOne : FS := fun p => if p = "f/Heightmap_y0_x0.r16" then some [5, 0] else none

/-- A tile cache configured for 1×1 tiles with nothing loaded. -/
def exCache : HeightTileCache :=
  { tiles := [], folder := "f", tile_res_x := 1, tile_res_y := 1,
    fname_pre := "Heightmap", fname_ext := ".r16" }

/-- The cache with the 1×1 max-sample tile already resident for key `(0,0)`. -/
def exCacheLoaded : HeightTileCache := { exCache with tiles := [((0, 0), oneTile)] }

/-- Terrain metadata with a 4×4 world of 1×1 chunks at the origin, unit
height scale, full raw range, and the default `flip_v = true`. -/
def exData : HeightmapData :=
  { size_x := 4, size_y := 4, origin_x := 0, origin_y := 0, height_scale := 1,
    chunk_x := 1, chunk_y := 1, rmin := 0, rmax := 65535, flip_v := true }

/-- Terrain metadata with a 4×4 world of 2×2 chunks at the origin, unit
height scale, full raw range, and the default `flip_v = true`: the 2-unit
chunk lets integer world points land mid-chunk. -/
def exData2 : HeightmapData :=
  { size_x := 4, size_y := 4, origin_x := 0, origin_y := 0, height_scale := 1,
    chunk_x := 2, chunk_y := 2, rmin := 0, rmax := 65535, flip_v := true }

/-- Terrain metadata for the mesh-seam counterexample: 256-unit chunks, height
scale 600, full raw range. -/
def seamData : HeightmapData :=
  { size_x := 4096, size_y := 4096, origin_x := 0, origin_y := 0, height_scale := 600,
    chunk_x := 256, chunk_y := 256, rmin := 0, rmax := 65535, flip_v := true }

/-- Left chunk's tile for the seam counterexample (2×2, all zero). -/
def seamTileL : Tile16 := ⟨2, 2, [0, 0, 0, 0]⟩

/-- Right chunk's tile for the seam counterexample: the samples of its first
column differ between rows 0 and 1 (`t(0,0) = 0`, `t(0,1) = 65535`). -/
def seamTileR : Tile16 := ⟨2, 2, [0, 0, 65535, 0]⟩

/-- A 1×33 all-zero tile whose row count is grid-aligned for the Far tier
(32 divides 32). -/
def alignedTile : Tile16 := ⟨1, 33, List.replicate 33 0⟩

/-- First scheduling pass of the admission-uniqueness counterexample: an empty
world desires chunk `(0, 0)` at the Far tier; its tile file exists, so a
build job is admitted; no task ever reports ready. -/
def cexPass1 : SchedResult :=
  schedulePass (fun v => v) fsOne exData2 [((0, 0), LodLevel.Far)] 4 (fun _ => false)
    exCache { loaded := [], tasks := [], pending := [] }

/-- Second pass: the camera moved, so chunk `(0, 0)` is now desired at the Mid
tier while the Far job is still in flight and the chunk is still not
resident. -/
def cexPass2 : SchedResult :=
  schedulePass (fun v => v) fsOne exData2 [((0, 0), LodLevel.Mid)] 4 (fun _ => false)
    cexPass1.cache
    { loaded := cexPass1.loaded, tasks := cexPass1.tasks, pending := cexPass1.pending }

/-! General helper lemmas. -/

theorem i32ofU32_small {n : ℕ} (h : n < 2 ^ 31) : i32ofU32 n = n := by
  have h32 : n < 2 ^ 32 := lt_trans h (by norm_num)
  unfold i32ofU32
  rw [Nat.mod_eq_of_lt h32, if_pos h]

theorem i32wrap_eq_self {z : ℤ} (h1 : -2 ^ 31 ≤ z) (h2 : z < 2 ^ 31) : i32wrap z = z := by
  unfold i32wrap
  omega

theorem rustRound_natCast (n : ℕ) : rustRound (n : ℚ) = n := by
  rw [rustRound, if_pos (by positivity)]
  apply Int.floor_eq_iff.mpr
  constructor
  · push_cast
    linarith
  · push_cast
    linarith

theorem rustRound_zero : rustRound 0 = 0 := by
  simpa using rustRound_natCast 0

/-! Claim C6. -/

/-- Claim C6: `LodLevel.pick` is a pure, monotonic step function of distance:
for `d1 ≤ d2` the tier picked at `d1` is at least as detailed (Near < Mid <
Far), and there is no hysteresis — `pick` depends only on the current
distance, so crossing the 600/1200 thresholds in either direction immediately
changes the answer, as witnessed at the threshold boundaries. -/
theorem lod_pick_monotone_step :
    (∀ d1 d2 : ℚ, d1 ≤ d2 → (LodLevel.pick d1).rank ≤ (LodLevel.pick d2).rank) ∧
    LodLevel.pick 599 = .Near ∧ LodLevel.pick 600 = .Mid ∧
    LodLevel.pick 1199 = .Mid ∧ LodLevel.pick 1200 = .Far := by
  refine ⟨?_, by decide, by decide, by decide, by decide⟩
  intro d1 d2 h
  unfold LodLevel.pick
  split_ifs <;> simp_all [LodLevel.rank] <;> linarith

/-- Witness for the hypothesis of claim C6's theorem at the concrete pair
`(3, 700)`. -/
theorem lod_pick_monotone_step_witness :
    (3 : ℚ) ≤ 700 ∧ (LodLevel.pick 3).rank ≤ (LodLevel.pick 700).rank :=
  ⟨by norm_num, lod_pick_monotone_step.1 3 700 (by norm_num)⟩

/-! Claim C9. -/

/-- Claim C9, counterexample: the claim states that the default
`SlopeSampler::sample_normal` yields a central-difference finite-difference
normal "rather than no answer" for a height-only source; in the code
(`props/core.rs` line 151) the default body is `None`, so at the concrete
query point `(0, 0)` no normal is produced. -/
theorem sample_normal_default_cex :
    slope_sampler_sample_normal_default 0 0 = none ∧
    (slope_sampler_sample_normal_default 0 0).isSome = false := by
  exact ⟨rfl, rfl⟩

/-- Claim C9, amended: the `SlopeSampler` trait's default `sample_normal` (and
`slope_deg`) implementations return `None` for every query point; a
height-only source that does not override them reports no normal estimate.
The central-difference estimate exists only inside the mesh builder's normal
computation, not in this interface. -/
theorem sample_normal_default_none (x z : ℚ) :
    slope_sampler_sample_normal_default x z = none ∧
    slope_sampler_slope_deg_default x z = none :=
  ⟨rfl, rfl⟩

/-! Claim C10. -/

/-- Claim C10, counterexample: a tile satisfying the claim's hypotheses
(buffer length equals `res.x * res.y`, `res.x ≥ 1`, `res.y ≥ 1`) on which
`get_clamped(0, 0)` panics: with `res.x = 2^31 + 1` the cast `res.x as i32`
wraps to a negative value and `clamp(0, res.x as i32 - 1)` fails its
`min ≤ max` assertion (modelled as `none`), refuting "performs an in-bounds
buffer access … it never panics". -/
theorem get_clamped_overflow_cex :
    overflowTile.data.length = overflowTile.res_x * overflowTile.res_y ∧
    1 ≤ overflowTile.res_x ∧ 1 ≤ overflowTile.res_y ∧
    overflowTile.get_clamped 0 0 = none := by
  refine ⟨?_, Nat.le_add_left 1 _, le_refl 1, ?_⟩
  · show (List.replicate (2 ^ 31 + 1) 0).length = (2 ^ 31 + 1) * 1
    rw [List.length_replicate, Nat.mul_one]
  · rfl

/-- Claim C10, amended: for every tile whose buffer length equals
`res.x * res.y` with `1 ≤ res.x < 2^31`, `1 ≤ res.y < 2^31` and
`res.x * res.y ≤ 2^32` (so the `as i32` casts and the `u32` index arithmetic
do not wrap), and for every pair of signed coordinates — including negative
and out-of-range values — `get_clamped` performs an in-bounds buffer access
and returns the sample at the coordinates clamped into
`[0, res.x-1] × [0, res.y-1]`; it never panics. -/
theorem get_clamped_safe (t : Tile16) (x y : ℤ)
    (hlen : t.data.length = t.res_x * t.res_y)
    (hx1 : 1 ≤ t.res_x) (hy1 : 1 ≤ t.res_y)
    (hx2 : t.res_x < 2 ^ 31) (hy2 : t.res_y < 2 ^ 31)
    (hprod : t.res_x * t.res_y ≤ 2 ^ 32) :
    (min (max y 0) ((t.res_y : ℤ) - 1)).toNat * t.res_x +
        (min (max x 0) ((t.res_x : ℤ) - 1)).toNat < t.data.length ∧
    t.get_clamped x y =
      some (t.data.getD
        ((min (max y 0) ((t.res_y : ℤ) - 1)).toNat * t.res_x +
          (min (max x 0) ((t.res_x : ℤ) - 1)).toNat) 0) := by
  have hmx : i32wrap (i32ofU32 t.res_x - 1) = (t.res_x : ℤ) - 1 := by
    rw [i32ofU32_small hx2]
    exact i32wrap_eq_self (by omega) (by omega)
  have hmy : i32wrap (i32ofU32 t.res_y - 1) = (t.res_y : ℤ) - 1 := by
    rw [i32ofU32_small hy2]
    exact i32wrap_eq_self (by omega) (by omega)
  have hxmod : t.res_x % 2 ^ 32 = t.res_x :=
    Nat.mod_eq_of_lt (lt_trans hx2 (by norm_num))
  set xi := (min (max x 0) ((t.res_x : ℤ) - 1)).toNat with hxi
  set yi := (min (max y 0) ((t.res_y : ℤ) - 1)).toNat with hyi
  have hxle : xi ≤ t.res_x - 1 := by omega
  have hyle : yi ≤ t.res_y - 1 := by omega
  have hidx : yi * t.res_x + xi < t.res_x * t.res_y := by
    obtain ⟨a, ha⟩ := Nat.exists_eq_succ_of_ne_zero (show t.res_x ≠ 0 by omega)
    obtain ⟨b, hb⟩ := Nat.exists_eq_succ_of_ne_zero (show t.res_y ≠ 0 by omega)
    have h1 : yi ≤ b := by omega
    have h2 : xi ≤ a := by omega
    rw [ha, hb]
    nlinarith
  have hidxlen : yi * t.res_x + xi < t.data.length := by rw [hlen]; exact hidx
  refine ⟨hidxlen, ?_⟩
  unfold Tile16.get_clamped
  rw [hmx, hmy]
  rw [if_neg (by push_neg; omega)]
  have hmod : (yi * (t.res_x % 2 ^ 32) + xi) % 2 ^ 32 = yi * t.res_x + xi := by
    rw [hxmod]
    exact Nat.mod_eq_of_lt (by omega)
  simp only [← hxi, ← hyi, hmod]
  rw [List.get?_eq_get hidxlen, List.getD_eq_getElem _ _ hidxlen]
  rfl

/-- Witness for claim C10's amended theorem: the well-formed 2×2 tile
`witTile` queried at the out-of-range coordinates `(-5, 7)` clamps to pixel
`(0, 1)` and returns its sample `3` without panicking. -/
theorem get_clamped_safe_witness :
    witTile.data.length = witTile.res_x * witTile.res_y ∧
    (min (max (7 : ℤ) 0) ((witTile.res_y : ℤ) - 1)).toNat * witTile.res_x +
        (min (max (-5 : ℤ) 0) ((witTile.res_x : ℤ) - 1)).toNat < witTile.data.length ∧
    witTile.get_clamped (-5) 7 =
      some (witTile.data.getD
        ((min (max (7 : ℤ) 0) ((witTile.res_y : ℤ) - 1)).toNat * witTile.res_x +
          (min (max (-5 : ℤ) 0) ((witTile.res_x : ℤ) - 1)).toNat) 0) := by
  have h := get_clamped_safe witTile (-5) 7 (by decide) (by decide) (by decide)
    (by decide) (by decide) (by decide)
  exact ⟨by decide, h.1, h.2⟩

/-! Claim C4. -/

theorem decode_le16_get (bytes : List ℕ) (i : ℕ) (h : 2 * i + 1 < bytes.length) :
    (decode_le16 bytes).get? i =
      some (bytes.getD (2 * i) 0 % 256 + 256 * (bytes.getD (2 * i + 1) 0 % 256)) := by
  induction i generalizing bytes with
  | zero =>
    match bytes, h with
    | lo :: hi :: rest, _ => simp [decode_le16]
  | succ i ih =>
    match bytes, h with
    | lo :: hi :: rest, h =>
      have h' : 2 * i + 1 < rest.length := by simp at h; omega
      have : 2 * (i + 1) = 2 * i + 1 + 1 := by ring
      simp only [decode_le16, List.get?_cons_succ, this, List.getD_cons_succ]
      exact ih rest h'

/-- Claim C4: on a cache miss for a tile coordinate, a fetch (a) with a
missing file returns `none` and leaves the cache unchanged, (b) with a file
shorter than `width*height*2` bytes returns `none` and leaves the cache
unchanged — so a subsequent fetch of the same coordinate attempts the load
again (nothing was cached) — and (c) with a sufficiently long file reads
exactly `width*height*2` bytes, decodes them as little-endian unsigned
16-bit samples in row-major order, inserts the tile into the cache, and
returns it. -/
theorem fetch_tile_miss_spec (c : HeightTileCache) (fs : FS) (cx cz : ℤ)
    (hmiss : alookup (cx, cz) c.tiles = none) :
    (fs (tile_path c cx cz) = none → fetch_tile c fs cx cz = (none, c)) ∧
    (∀ bytes, fs (tile_path c cx cz) = some bytes →
      bytes.length < c.tile_res_x * c.tile_res_y * 2 →
      fetch_tile c fs cx cz = (none, c)) ∧
    (∀ bytes, fs (tile_path c cx cz) = some bytes →
      c.tile_res_x * c.tile_res_y * 2 ≤ bytes.length →
      fetch_tile c fs cx cz =
        (some ⟨c.tile_res_x, c.tile_res_y,
           decode_le16 (bytes.take (c.tile_res_x * c.tile_res_y * 2))⟩,
         { c with tiles := ((cx, cz), ⟨c.tile_res_x, c.tile_res_y,
             decode_le16 (bytes.take (c.tile_res_x * c.tile_res_y * 2))⟩) :: c.tiles })) ∧
    (∀ bytes i, fs (tile_path c cx cz) = some bytes →
      c.tile_res_x * c.tile_res_y * 2 ≤ bytes.length →
      i < c.tile_res_x * c.tile_res_y →
      (decode_le16 (bytes.take (c.tile_res_x * c.tile_res_y * 2))).get? i =
        some (bytes.getD (2 * i) 0 % 256 + 256 * (bytes.getD (2 * i + 1) 0 % 256))) := by
  refine ⟨?_, ?_, ?_, ?_⟩
  · intro hfs
    simp [fetch_tile, get_or_load, hmiss, load_raw16, hfs]
  · intro bytes hfs hshort
    simp [fetch_tile, get_or_load, hmiss, load_raw16, hfs, hshort]
  · intro bytes hfs hlong
    simp [fetch_tile, get_or_load, hmiss, load_raw16, hfs, Nat.not_lt.mpr hlong]
  · intro bytes i hfs hlong hi
    have hb : 2 * i + 1 < (bytes.take (c.tile_res_x * c.tile_res_y * 2)).length := by
      rw [List.length_take]
      omega
    rw [decode_le16_get _ _ hb]
    have h1 : 2 * i < c.tile_res_x * c.tile_res_y * 2 := by omega
    have h2 : 2 * i + 1 < c.tile_res_x * c.tile_res_y * 2 := by omega
    rw [List.getD_eq_getElem?_getD, List.getElem?_take_of_lt h1,
        List.getD_eq_getElem?_getD, List.getElem?_take_of_lt h2,
        ← List.getD_eq_getElem?_getD, ← List.getD_eq_getElem?_getD]

/-- Witness for claim C4's theorem: the empty cache `exCache` misses on key
`(0, 0)`; under `fsOne` (whose single file holds exactly 2 valid bytes) the
fetch decodes the little-endian sample `5` and caches the tile, and under the
empty filesystem the fetch fails and caches nothing. -/
theorem fetch_tile_miss_spec_witness :
    alookup ((0 : ℤ), (0 : ℤ)) exCache.tiles = none ∧
    fetch_tile exCache fsEmpty 0 0 = (none, exCache) ∧
    fetch_tile exCache fsOne 0 0 =
      (some ⟨1, 1, [5]⟩, { exCache with tiles := [((0, 0), ⟨1, 1, [5]⟩)] }) := by
  have h := fetch_tile_miss_spec exCache fsEmpty 0 0 (by rfl)
  have h2 := fetch_tile_miss_spec exCache fsOne 0 0 (by rfl)
  refine ⟨rfl, h.1 rfl, ?_⟩
  have := h2.2.2.1 [5, 0] (by rfl) (by norm_num [exCache])
  simpa [exCache, decode_le16] using this

/-! Claim C7. -/

/-- Claim C7: in a single integration pass, no matter how many completed
meshes wait in the completion queue, exactly `min K queue-length` entries
are removed and integrated — hence at most `K` — at most `K`
`TerrainChunkLoaded` events are emitted (one per integration), and the
remaining entries stay queued, where `K` is the configured integration
budget. -/
theorem receive_budget (data : HeightmapData) (K : ℕ) (ps : List BuildTask)
    (loaded : List (Key × (ℕ × LodLevel))) (ent : ℕ) :
    (receiveGo data K ps loaded ent).2.2.2.length = min K ps.length ∧
    (receiveGo data K ps loaded ent).2.2.2.length ≤ K ∧
    (receiveGo data K ps loaded ent).1 = ps.drop (min K ps.length) := by
  induction K generalizing ps loaded ent with
  | zero => simp [receiveGo]
  | succ K ih =>
    cases ps with
    | nil => simp [receiveGo]
    | cons p rest =>
      obtain ⟨info, mesh⟩ := p
      have h := ih rest (ainsert (info.cx, info.cz) (ent, info.lod) loaded) (ent + 1)
      refine ⟨?_, ?_, ?_⟩
      · simp only [receiveGo, List.length_cons, Nat.succ_min_succ, List.length_cons]
        rw [h.1]
      · simp only [receiveGo, List.length_cons]
        omega
      · simp only [receiveGo, List.length_cons, Nat.succ_min_succ, List.drop_succ_cons]
        exact h.2.2

/-! Claim C5. -/

/-- Claim C5, counterexample: with the default `flip_v = true` configuration
`exData2` and a cache holding only the tile for chunk `(0, 0)`, sampling the
in-bounds world point `(0, 1)` (local coordinates `(0, 1)`, whose floored
division by the chunk size 2 is chunk `(0, 0)`) fetches the tile at the
*flipped* chunk index `(0, 1)` — which is absent, so the source returns
`none` — while the claim's sampler returns the cached sample. -/
theorem sample_height_flip_cex :
    sample_height 0 1 exData2 exCacheLoaded fsEmpty = (none, exCacheLoaded) ∧
    sample_height_claim 0 1 exData2 exCacheLoaded fsEmpty = (some 1, exCacheLoaded) ∧
    sample_height 0 1 exData2 exCacheLoaded fsEmpty ≠
      sample_height_claim 0 1 exData2 exCacheLoaded fsEmpty := by
  have h1 : sample_height 0 1 exData2 exCacheLoaded fsEmpty = (none, exCacheLoaded) := by
    norm_num [sample_height, sample_local, exData2, exCacheLoaded, exCache, fetch_tile,
      get_or_load, alookup, load_raw16, fsEmpty, tile_path, Prod.mk.injEq]
    decide
  have h2 : sample_height_claim 0 1 exData2 exCacheLoaded fsEmpty =
      (some 1, exCacheLoaded) := by
    norm_num [sample_height_claim, sample_local, exData2, exCacheLoaded, exCache, fetch_tile,
      get_or_load, alookup, oneTile, sample_in_tile, Tile16.gc, Tile16.get_clamped,
      i32ofU32, i32wrap, rclamp, Prod.mk.injEq, min_def, max_def]
  exact ⟨h1, h2, by rw [h1, h2]; simp⟩

/-- Claim C5, amended: the source sampler translates to local coordinates by
subtracting the origin and returns `none` (with the cache untouched) when the
local coordinate is outside `[0, worldSize)` in either axis; when
`flip_v = false` it agrees exactly with the claim's sampler (chunk indices by
floored division of the local coordinates, in-chunk position the remainder);
when `flip_v = true` (the default) the Z local coordinate is first flipped to
`size.y − lz`, so for interior points the result equals the claim's sampler
evaluated at the V-mirrored world point. -/
theorem sample_height_localization (x z : ℚ) (data : HeightmapData)
    (cache : HeightTileCache) (fs : FS) :
    ((x - data.origin_x < 0 ∨ z - data.origin_y < 0 ∨
        data.size_x ≤ x - data.origin_x ∨ data.size_y ≤ z - data.origin_y) →
      sample_height x z data cache fs = (none, cache)) ∧
    (data.flip_v = false →
      sample_height x z data cache fs = sample_height_claim x z data cache fs) ∧
    (data.flip_v = true → 0 ≤ x - data.origin_x → 0 < z - data.origin_y →
      x - data.origin_x < data.size_x → z - data.origin_y < data.size_y →
      sample_height x z data cache fs =
        sample_height_claim x (2 * data.origin_y + data.size_y - z) data cache fs) := by
  refine ⟨?_, ?_, ?_⟩
  · intro h
    simp only [sample_height]
    rw [if_pos h]
  · intro hflip
    simp only [sample_height, sample_height_claim, hflip, Bool.false_eq_true, if_false]
  · intro hflip h0x h0z hx hz
    simp only [sample_height, sample_height_claim, hflip, if_true]
    rw [if_neg (by push_neg; exact ⟨h0x, by linarith, hx, hz⟩)]
    rw [if_neg (by push_neg; refine ⟨h0x, by linarith, hx, by linarith⟩)]
    have harg : 2 * data.origin_y + data.size_y - z - data.origin_y =
        data.size_y - (z - data.origin_y) := by ring
    rw [harg]

/-- Witness for claim C5's amended theorem: out-of-bounds, flip-off agreement,
and flip-on mirrored agreement, each at a concrete input. -/
theorem sample_height_localization_witness :
    (sample_height (-1) 0 exData exCacheLoaded fsEmpty = (none, exCacheLoaded)) ∧
    (sample_height (1 / 2) (1 / 2) { exData with flip_v := false } exCacheLoaded fsEmpty =
      sample_height_claim (1 / 2) (1 / 2) { exData with flip_v := false } exCacheLoaded fsEmpty) ∧
    (sample_height (1 / 2) (1 / 2) exData exCacheLoaded fsEmpty =
      sample_height_claim (1 / 2) (2 * exData.origin_y + exData.size_y - 1 / 2) exData
        exCacheLoaded fsEmpty) := by
  refine ⟨?_, ?_, ?_⟩
  · exact (sample_height_localization (-1) 0 exData exCacheLoaded fsEmpty).1
      (by left; norm_num [exData])
  · exact (sample_height_localization (1 / 2) (1 / 2) _ exCacheLoaded fsEmpty).2.1 rfl
  · exact (sample_height_localization (1 / 2) (1 / 2) exData exCacheLoaded fsEmpty).2.2 rfl
      (by norm_num [exData]) (by norm_num [exData]) (by norm_num [exData]) (by norm_num [exData])

/-! Scheduler helper lemmas. -/

theorem swapRemove_perm {α : Type} (l : List α) (i : ℕ) (h : i < l.length) :
    (l.get ⟨i, h⟩ :: swapRemove l i).Perm l := by
  induction l generalizing i with
  | nil => simp at h
  | cons a t ih =>
    cases i with
    | zero =>
      cases t with
      | nil => simp [swapRemove]
      | cons b u =>
        have hne : (b :: u : List α) ≠ [] := by simp
        simp only [List.get, swapRemove, List.getLast?_cons_cons, List.set_cons_zero]
        rw [List.getLast?_eq_getLast_of_ne_nil hne]
        simp only [List.dropLast_cons₂]
        refine List.Perm.cons a ?_
        conv_rhs => rw [← List.dropLast_append_getLast hne]
        exact (List.perm_append_singleton _ _).symm
    | succ i =>
      cases t with
      | nil => simp at h
      | cons b u =>
        have hne : (b :: u : List α) ≠ [] := by simp
        have hi : i < (b :: u).length := by simpa using h
        simp only [List.get, swapRemove, List.getLast?_cons_cons, List.set_cons_succ]
        rw [List.getLast?_eq_getLast_of_ne_nil hne]
        have hset : ((b :: u).set i ((b :: u).getLast hne)).dropLast =
            swapRemove (b :: u) i := by
          simp only [swapRemove, List.getLast?_eq_getLast_of_ne_nil hne]
        dsimp only
        rw [List.dropLast_cons_of_ne_nil (by simp [hne]), hset]
        refine List.Perm.trans (List.Perm.swap _ _ _) ?_
        exact List.Perm.cons a (ih i hi)

theorem pollGo_perm (ready : BuildTask → Bool) (fuel : ℕ) :
    ∀ (ts ps : List BuildTask) (i : ℕ),
      ((pollGo ready fuel ts ps i).1 ++ (pollGo ready fuel ts ps i).2).Perm (ts ++ ps) := by
  induction fuel with
  | zero => intro ts ps i; simp [pollGo]
  | succ fuel ih =>
    intro ts ps i
    rw [pollGo]
    split
    case isTrue h =>
      dsimp only
      split
      case isTrue hr =>
        refine (ih _ _ _).trans ?_
        rw [← List.append_assoc]
        refine (List.perm_append_singleton _ _).trans ?_
        exact (swapRemove_perm ts i h).append_right ps
      case isFalse hr => exact ih _ _ _
    case isFalse h => simp

theorem reconcileStep_sublist (desired : List (Key × LodLevel)) (st : SchedResult) (k : Key) :
    (reconcileStep desired st k).tasks.Sublist st.tasks ∧
    (reconcileStep desired st k).pending.Sublist st.pending := by
  unfold reconcileStep
  dsimp only
  split
  · exact ⟨List.filter_sublist _, List.filter_sublist _⟩
  · exact ⟨List.Sublist.refl _, List.Sublist.refl _⟩

theorem reconcileFold_sublist (desired : List (Key × LodLevel)) :
    ∀ (keys : List Key) (st : SchedResult),
      ((keys.foldl (reconcileStep desired) st).tasks.Sublist st.tasks) ∧
      ((keys.foldl (reconcileStep desired) st).pending.Sublist st.pending) := by
  intro keys
  induction keys with
  | nil => intro st; simp
  | cons k rest ih =>
    intro st
    simp only [List.foldl_cons]
    exact ⟨(ih _).1.trans (reconcileStep_sublist desired st k).1,
           (ih _).2.trans (reconcileStep_sublist desired st k).2⟩

theorem reconcile_sublist (desired : List (Key × LodLevel)) (cache : HeightTileCache)
    (st : SchedState) :
    (reconcile desired cache st).tasks.Sublist st.tasks ∧
    (reconcile desired cache st).pending.Sublist st.pending := by
  unfold reconcile
  exact reconcileFold_sublist desired (st.loaded.map Prod.fst) _

theorem reconcileStep_cache (desired : List (Key × LodLevel)) (st : SchedResult) (k : Key) :
    (reconcileStep desired st k).cache = st.cache := by
  unfold reconcileStep
  dsimp only
  split <;> rfl

theorem reconcileFold_cache (desired : List (Key × LodLevel)) :
    ∀ (keys : List Key) (st : SchedResult),
      (keys.foldl (reconcileStep desired) st).cache = st.cache := by
  intro keys
  induction keys with
  | nil => intro st; rfl
  | cons k rest ih =>
    intro st
    simp only [List.foldl_cons]
    rw [ih, reconcileStep_cache]

theorem reconcile_cache (desired : List (Key × LodLevel)) (cache : HeightTileCache)
    (st : SchedState) : (reconcile desired cache st).cache = cache := by
  unfold reconcile
  rw [reconcileFold_cache]

theorem nodup_append_singleton {α β : Type} (f : α → β) (ts ps : List α) (x : α)
    (h : ((ts ++ ps).map f).Nodup) (hx : f x ∉ (ts ++ ps).map f) :
    (((ts ++ [x]) ++ ps).map f).Nodup := by
  have hperm : ((ts ++ [x]) ++ ps).Perm (x :: (ts ++ ps)) :=
    (List.perm_append_singleton x ts).append_right ps
  rw [(hperm.map f).nodup_iff, List.map_cons, List.nodup_cons]
  exact ⟨hx, h⟩

theorem admitGo_nodup (normalize : ℚ × ℚ × ℚ → ℚ × ℚ × ℚ) (fs : FS) (data : HeightmapData)
    (loaded : List (Key × (ℕ × LodLevel))) (pending : List BuildTask) (budget : ℕ) :
    ∀ (des : List (Key × LodLevel)) (ts : List BuildTask) (c : HeightTileCache) (started : ℕ),
      ((ts ++ pending).map taskKey).Nodup →
      (((admitGo normalize fs data loaded pending budget des ts c started).1 ++ pending).map
        taskKey).Nodup := by
  intro des
  induction des with
  | nil => intro ts c started h; simpa [admitGo] using h
  | cons d rest ih =>
    intro ts c started h
    obtain ⟨⟨cx, cz⟩, lod⟩ := d
    rw [admitGo]
    split
    · exact ih _ _ _ h
    · split
      case isTrue => exact ih _ _ _ h
      case isFalse hqueue =>
        split
        case isTrue => simpa using h
        case isFalse hbudget =>
          dsimp only
          split
          · exact ih _ _ _ h
          case h_2 cur hcur =>
            apply ih
            have hnot : (cx, cz, lod) ∉ ((ts ++ pending).map taskKey) := by
              intro hmem
              apply hqueue
              obtain ⟨t, ht, hk⟩ := List.mem_map.mp hmem
              have hcomp : t.1.cx = cx ∧ t.1.cz = cz ∧ t.1.lod = lod := by
                simpa [taskKey, Prod.ext_iff] using hk
              rw [List.mem_append] at ht
              rw [Bool.or_eq_true]
              rcases ht with ht | ht
              · exact Or.inl (List.any_eq_true.mpr ⟨t, ht, by simpa using hcomp⟩)
              · exact Or.inr (List.any_eq_true.mpr ⟨t, ht, by simpa using hcomp⟩)
            exact nodup_append_singleton taskKey ts pending _ h hnot

theorem fetch_preserves_missing (c : HeightTileCache) (fs : FS) (a b kx kz : ℤ)
    (habs : alookup (kx, kz) c.tiles = none)
    (hfail : load_raw16 c fs (tile_path c kx kz) = none) :
    alookup (kx, kz) (fetch_tile c fs a b).2.tiles = none ∧
    load_raw16 (fetch_tile c fs a b).2 fs (tile_path (fetch_tile c fs a b).2 kx kz) = none ∧
    ((a, b) = ((kx : ℤ), (kz : ℤ)) → (fetch_tile c fs a b).1 = none) := by
  unfold fetch_tile get_or_load
  cases hl : alookup (a, b) c.tiles with
  | some t =>
    refine ⟨habs, hfail, ?_⟩
    intro hab
    rw [hab, habs] at hl
    exact absurd hl (by simp)
  | none =>
    cases hload : load_raw16 c fs (tile_path c a b) with
    | none => exact ⟨habs, hfail, fun _ => rfl⟩
    | some t =>
      have hne : ((a, b) : Key) ≠ (kx, kz) := by
        intro hab
        injection hab with ha hb
        rw [ha, hb, hfail] at hload
        exact absurd hload (by simp)
      refine ⟨?_, ?_, fun hab => absurd hab hne⟩
      · rw [alookup, if_neg hne]
        exact habs
      · exact hfail

theorem admitGo_missing (normalize : ℚ × ℚ × ℚ → ℚ × ℚ × ℚ) (fs : FS) (data : HeightmapData)
    (loaded : List (Key × (ℕ × LodLevel))) (pending : List BuildTask) (budget : ℕ)
    (kx kz : ℤ) :
    ∀ (des : List (Key × LodLevel)) (ts : List BuildTask) (c : HeightTileCache) (started : ℕ),
      alookup (kx, kz) c.tiles = none →
      load_raw16 c fs (tile_path c kx kz) = none →
      (∀ t ∈ ts, ¬(t.1.cx = kx ∧ t.1.cz = kz)) →
      (∀ t ∈ (admitGo normalize fs data loaded pending budget des ts c started).1,
        ¬(t.1.cx = kx ∧ t.1.cz = kz)) := by
  intro des
  induction des with
  | nil => intro ts c started habs hfail hts; simpa [admitGo] using hts
  | cons d rest ih =>
    intro ts c started habs hfail hts
    obtain ⟨⟨cx, cz⟩, lod⟩ := d
    rw [admitGo]
    split
    · exact ih _ _ _ habs hfail hts
    · split
      case isTrue => exact ih _ _ _ habs hfail hts
      case isFalse hqueue =>
        split
        case isTrue => simpa using hts
        case isFalse hbudget =>
          dsimp only
          have h1 := fetch_preserves_missing c fs cx cz kx kz habs hfail
          have h2 := fetch_preserves_missing _ fs (cx + 1) cz kx kz h1.1 h1.2.1
          have h3 := fetch_preserves_missing _ fs cx (cz + 1) kx kz h2.1 h2.2.1
          have h4 := fetch_preserves_missing _ fs (cx + 1) (cz + 1) kx kz h3.1 h3.2.1
          split
          · exact ih _ _ _ h4.1 h4.2.1 hts
          case h_2 cur hcur =>
            have hkey : ¬(cx = kx ∧ cz = kz) := by
              rintro ⟨rfl, rfl⟩
              rw [h1.2.2 rfl] at hcur
              exact absurd hcur (by simp)
            refine ih _ _ _ h4.1 h4.2.1 ?_
            intro t ht
            rw [List.mem_append] at ht
            rcases ht with ht | ht
            · exact hts t ht
            · have : t = (⟨cx, cz, lod⟩,
                  build_mesh_or_fallback cx cz lod.grid_res data cur
                    (fetch_tile (fetch_tile c fs cx cz).2 fs (cx + 1) cz).1
                    (fetch_tile (fetch_tile (fetch_tile c fs cx cz).2 fs (cx + 1) cz).2 fs cx
                      (cz + 1)).1
                    (fetch_tile
                      (fetch_tile (fetch_tile (fetch_tile c fs cx cz).2 fs (cx + 1) cz).2 fs cx
                        (cz + 1)).2 fs (cx + 1) (cz + 1)).1 normalize) := by
                simpa using ht
              rw [this]
              exact hkey

theorem receive_no_unloaded (data : HeightmapData) :
    ∀ (k : ℕ) (ps : List BuildTask) (loaded : List (Key × (ℕ × LodLevel))) (ent : ℕ),
      ∀ e ∈ (receiveGo data k ps loaded ent).2.2.2, e.isUnloaded = false := by
  intro k
  induction k with
  | zero => intro ps loaded ent e he; simp [receiveGo] at he
  | succ k ih =>
    intro ps loaded ent e he
    cases ps with
    | nil => simp [receiveGo] at he
    | cons p rest =>
      obtain ⟨info, mesh⟩ := p
      simp only [receiveGo, List.mem_cons] at he
      rcases he with he | he
      · rw [he]; rfl
      · exact ih rest _ _ e he

/-! Claim C1. -/

/-- Claim C1, counterexample: the admission check deduplicates on
`(cx, cz, lod)`, not on the chunk key alone, and Step 2 drops stale tasks
only for *loaded* keys. Two consecutive passes that desire chunk `(0, 0)`
first at Far and then at Mid — while the chunk never becomes resident and the
Far job never completes — leave the in-flight job list with two entries for
the key `(0, 0)`: the second admission for a key with an in-flight job is
accepted because its tier differs. -/
theorem admission_duplicate_key_cex :
    (cexPass2.tasks.map taskChunk).count (0, 0) = 2 ∧
    cexPass2.tasks.map taskKey = [(0, 0, LodLevel.Far), (0, 0, LodLevel.Mid)] := by
  refine ⟨?_, ?_⟩ <;> decide

/-- Claim C1, amended: after any scheduling pass, the in-flight build job list
contains at most one entry per `(chunk key, LOD tier)` — a second admission
for the same key at the *same* tier is rejected, but a key whose in-flight
job targets a different tier can be admitted again alongside it (as the
counterexample shows). The invariant is stated as: if the tasks and pending
lists jointly carry no duplicate `(cx, cz, lod)` before the pass, the same
holds afterwards, and in particular the task list itself carries no
duplicate. -/
theorem admission_unique_per_key_lod (normalize : ℚ × ℚ × ℚ → ℚ × ℚ × ℚ) (fs : FS)
    (data : HeightmapData) (desired : List (Key × LodLevel)) (budget : ℕ)
    (ready : BuildTask → Bool) (cache : HeightTileCache) (st : SchedState)
    (hst : ((st.tasks ++ st.pending).map taskKey).Nodup) :
    (((schedulePass normalize fs data desired budget ready cache st).tasks ++
        (schedulePass normalize fs data desired budget ready cache st).pending).map
      taskKey).Nodup ∧
    ((schedulePass normalize fs data desired budget ready cache st).tasks.map taskKey).Nodup := by
  simp only [schedulePass]
  have hrec := reconcile_sublist desired cache st
  set r := reconcile desired cache st with hr
  have h1 : ((r.tasks ++ r.pending).map taskKey).Nodup :=
    List.Nodup.sublist ((hrec.1.append hrec.2).map taskKey) hst
  have h2 := admitGo_nodup normalize fs data r.loaded r.pending budget desired r.tasks r.cache 0 h1
  set a := admitGo normalize fs data r.loaded r.pending budget desired r.tasks r.cache 0 with ha
  have hperm := pollGo_perm ready a.1.length a.1 r.pending 0
  have h3 : (((pollTasks ready a.1 r.pending).1 ++ (pollTasks ready a.1 r.pending).2).map
      taskKey).Nodup := by
    rw [pollTasks, (hperm.map taskKey).nodup_iff]
    exact h2
  refine ⟨h3, ?_⟩
  rw [List.map_append] at h3
  exact List.Nodup.sublist (List.sublist_append_left _ _) h3

/-- Witness for claim C1's amended theorem: one pass from the empty state
(whose task and pending lists trivially carry no duplicate) leaves the
in-flight list duplicate-free. -/
theorem admission_unique_per_key_lod_witness :
    ((([] : List BuildTask) ++ ([] : List BuildTask)).map taskKey).Nodup ∧
    ((cexPass1.tasks ++ cexPass1.pending).map taskKey).Nodup ∧
    (cexPass1.tasks.map taskKey).Nodup := by
  have h := admission_unique_per_key_lod (fun v => v) fsOne exData2 [((0, 0), LodLevel.Far)] 4
    (fun _ => false) exCache { loaded := [], tasks := [], pending := [] } (by decide)
  exact ⟨by decide, h.1, h.2⟩

/-! Claim C3. -/

/-- Claim C3 records a code bug: the spec promises a `ChunkUnloaded { key }`
event whenever reconciliation (Step 2) removes a resident chunk, and
`props/plugin.rs` declares `TerrainChunkUnloaded` with four consumer systems
reading it, but no system in the repository ever sends it —
`async_schedule_chunks` despawns the entity without writing any event. At
the concrete failing input (chunk `(0, 0)` resident at Far, desired set
empty) the pass removes and despawns the chunk, yet the only event-emitting
system, `async_receive_chunks`, emits `TerrainChunkLoaded` events only:
no execution produces an unloaded event. -/
theorem chunk_unloaded_never_emitted :
    (schedulePass (fun v => v) fsEmpty exData2 [] 4 (fun _ => false) exCache
      { loaded := [((0, 0), (7, LodLevel.Far))], tasks := [], pending := [] }).removed =
      [(0, 0)] ∧
    (schedulePass (fun v => v) fsEmpty exData2 [] 4 (fun _ => false) exCache
      { loaded := [((0, 0), (7, LodLevel.Far))], tasks := [], pending := [] }).loaded = [] ∧
    (∀ (data : HeightmapData) (k : ℕ) (ps : List BuildTask)
        (loaded : List (Key × (ℕ × LodLevel))) (ent : ℕ),
      (receiveGo data k ps loaded ent).2.2.2.filter (fun e => e.isUnloaded) = []) := by
  refine ⟨by decide, by decide, ?_⟩
  intro data k ps loaded ent
  rw [List.filter_eq_nil_iff]
  intro e he
  rw [receive_no_unloaded data k ps loaded ent e he]
  simp

/-! Claim C8. -/

/-- Claim C8, counterexample: building a chunk whose own tile is entirely
unavailable does not yield the fallback mesh — it yields nothing. With an
empty filesystem, a pass desiring chunk `(0, 0)` admits no build job, leaves
nothing pending and nothing resident: admission skips the chunk (to retry
next pass), so no 4-vertex fallback mesh for that chunk ever exists. -/
theorem missing_tile_no_mesh_cex :
    (schedulePass (fun v => v) fsEmpty exData2 [((0, 0), LodLevel.Far)] 4 (fun _ => false)
      exCache { loaded := [], tasks := [], pending := [] }).tasks = [] ∧
    (schedulePass (fun v => v) fsEmpty exData2 [((0, 0), LodLevel.Far)] 4 (fun _ => false)
      exCache { loaded := [], tasks := [], pending := [] }).pending = [] ∧
    (schedulePass (fun v => v) fsEmpty exData2 [((0, 0), LodLevel.Far)] 4 (fun _ => false)
      exCache { loaded := [], tasks := [], pending := [] }).loaded = [] := by
  refine ⟨?_, ?_, ?_⟩ <;> decide

/-- Claim C8, amended: a chunk whose own tile is unavailable (file missing or
invalid, tile not cached) is never built at all — the scheduling pass admits
no job and completes no mesh for its key, retrying next pass — while the
fallback quad `debug_fallback_quad` (which the build job would return only if
`build_chunk_mesh_from_tiles` yielded nothing, a path that never triggers)
does have exactly 4 vertices, 2 triangles (6 indices), all normals pointing
straight up, and world-space bounds exactly the chunk's configured
footprint. -/
theorem missing_tile_skip_and_quad (normalize : ℚ × ℚ × ℚ → ℚ × ℚ × ℚ) (fs : FS)
    (data : HeightmapData) (desired : List (Key × LodLevel)) (budget : ℕ)
    (ready : BuildTask → Bool) (cache : HeightTileCache) (st : SchedState) (kx kz : ℤ)
    (habs : alookup (kx, kz) cache.tiles = none)
    (hfail : load_raw16 cache fs (tile_path cache kx kz) = none)
    (hts : ∀ t ∈ st.tasks, ¬(t.1.cx = kx ∧ t.1.cz = kz))
    (hps : ∀ t ∈ st.pending, ¬(t.1.cx = kx ∧ t.1.cz = kz)) :
    (∀ t ∈ (schedulePass normalize fs data desired budget ready cache st).tasks,
      ¬(t.1.cx = kx ∧ t.1.cz = kz)) ∧
    (∀ t ∈ (schedulePass normalize fs data desired budget ready cache st).pending,
      ¬(t.1.cx = kx ∧ t.1.cz = kz)) ∧
    (∀ (qx qz : ℤ) (d : HeightmapData),
      (debug_fallback_quad qx qz d).positions.length = 4 ∧
      (debug_fallback_quad qx qz d).indices = [0, 2, 1, 1, 2, 3] ∧
      (debug_fallback_quad qx qz d).normals = List.replicate 4 (0, 1, 0) ∧
      (debug_fallback_quad qx qz d).positions =
        [((chunk_world_aabb qx qz d).1.1, 0, (chunk_world_aabb qx qz d).1.2),
         ((chunk_world_aabb qx qz d).2.1, 0, (chunk_world_aabb qx qz d).1.2),
         ((chunk_world_aabb qx qz d).1.1, 0, (chunk_world_aabb qx qz d).2.2),
         ((chunk_world_aabb qx qz d).2.1, 0, (chunk_world_aabb qx qz d).2.2)]) := by
  simp only [schedulePass]
  have hrec := reconcile_sublist desired cache st
  set r := reconcile desired cache st with hr
  have hrc : r.cache = cache := by rw [hr]; exact reconcile_cache desired cache st
  have hts1 : ∀ t ∈ r.tasks, ¬(t.1.cx = kx ∧ t.1.cz = kz) :=
    fun t ht => hts t (hrec.1.subset ht)
  have hps1 : ∀ t ∈ r.pending, ¬(t.1.cx = kx ∧ t.1.cz = kz) :=
    fun t ht => hps t (hrec.2.subset ht)
  have hadm := admitGo_missing normalize fs data r.loaded r.pending budget kx kz desired
    r.tasks r.cache 0 (by rw [hrc]; exact habs) (by rw [hrc]; exact hfail) hts1
  set a := admitGo normalize fs data r.loaded r.pending budget desired r.tasks r.cache 0 with ha
  have hperm := pollGo_perm ready a.1.length a.1 r.pending 0
  have hmem : ∀ t ∈ (pollTasks ready a.1 r.pending).1 ++ (pollTasks ready a.1 r.pending).2,
      ¬(t.1.cx = kx ∧ t.1.cz = kz) := by
    intro t ht
    rw [pollTasks] at ht
    have hm := hperm.mem_iff.mp ht
    rw [List.mem_append] at hm
    rcases hm with h | h
    · exact hadm t h
    · exact hps1 t h
  refine ⟨?_, ?_, ?_⟩
  · intro t ht
    exact hmem t (List.mem_append.mpr (Or.inl ht))
  · intro t ht
    exact hmem t (List.mem_append.mpr (Or.inr ht))
  · intro qx qz d
    refine ⟨rfl, rfl, rfl, ?_⟩
    simp only [debug_fallback_quad, chunk_world_aabb, chunk_origin_world]
    norm_num

/-- Witness for claim C8's amended theorem at the concrete scenario of the
counterexample (empty filesystem, empty state, chunk `(0, 0)` desired): the
hypotheses hold and the fallback quad for chunk `(0, 0)` has the stated
shape. -/
theorem missing_tile_skip_and_quad_witness :
    alookup (0, 0) exCache.tiles = none ∧
    load_raw16 exCache fsEmpty (tile_path exCache 0 0) = none ∧
    (debug_fallback_quad 0 0 exData2).positions.length = 4 ∧
    (debug_fallback_quad 0 0 exData2).indices = [0, 2, 1, 1, 2, 3] ∧
    (debug_fallback_quad 0 0 exData2).normals = List.replicate 4 (0, 1, 0) := by
  have h := missing_tile_skip_and_quad (fun v => v) fsEmpty exData2 [((0, 0), LodLevel.Far)] 4
    (fun _ => false) exCache { loaded := [], tasks := [], pending := [] } 0 0 rfl rfl
    (by intro t ht; simp at ht) (by intro t ht; simp at ht)
  have hq := h.2.2 0 0 exData2
  exact ⟨rfl, rfl, hq.1, hq.2.1, hq.2.2.1⟩

/-! Claim C2 helper lemmas. -/

theorem range_flatMap_length {α : Type} (n m : ℕ) (f : ℕ → ℕ → α) :
    ((List.range n).flatMap fun j => (List.range m).map fun i => f j i).length = n * m := by
  induction n with
  | zero => simp
  | succ n ih =>
    rw [List.range_succ, List.flatMap_append]
    simp [ih, Nat.succ_mul]

theorem range_flatMap_get {α : Type} (m : ℕ) (f : ℕ → ℕ → α) :
    ∀ (n i j : ℕ), i < m → j < n →
      ((List.range n).flatMap fun j => (List.range m).map fun i => f j i).get? (j * m + i) =
        some (f j i) := by
  intro n
  induction n with
  | zero => intro i j hi hj; omega
  | succ n ih =>
    intro i j hi hj
    rw [List.range_succ, List.flatMap_append]
    rcases Nat.lt_or_ge j n with h | h
    · rw [List.get?_append]
      · exact ih i j hi h
      · rw [range_flatMap_length]
        calc j * m + i < j * m + m := by omega
          _ = (j + 1) * m := (Nat.succ_mul j m).symm
          _ ≤ n * m := Nat.mul_le_mul_right m h
    · have hjn : j = n := by omega
      subst hjn
      rw [List.get?_append_right (by rw [range_flatMap_length]; omega)]
      rw [range_flatMap_length]
      simp only [List.flatMap_cons, List.flatMap_nil, List.append_nil, Nat.add_sub_cancel_left]
      rw [List.get?_map, List.get?_range hi]
      rfl

theorem build_positions_get (cx cz : ℤ) (grid : ℕ × ℕ) (data : HeightmapData) (cur : Tile16)
    (right up up_right : Option Tile16) (normalize : ℚ × ℚ × ℚ → ℚ × ℚ × ℚ) (i j : ℕ)
    (hi : i < max grid.1 2) (hj : j < max grid.2 2) :
    (build_mesh_or_fallback cx cz grid data cur right up up_right normalize).positions.get?
      (j * max grid.1 2 + i) =
      some (chunkVertexPos cx cz (max grid.1 2) (max grid.2 2) data cur right up up_right i j) := by
  unfold build_mesh_or_fallback build_chunk_mesh_from_tiles
  dsimp only [Option.getD]
  exact range_flatMap_get (max grid.1 2) _ (max grid.2 2) i j hi hj

theorem rclamp_unit {x : ℚ} (h0 : 0 ≤ x) (h1 : x ≤ 1) : rclamp x 0 1 = x := by
  rw [rclamp, max_eq_left h0, min_eq_left h1]

theorem chunkSampleRaw_left_edge (N1 N2 : ℕ) (hN2 : 2 ≤ N2)
    (tL tR tU tUR : Tile16) (ry q : ℕ) (hL : tL.res_y = ry) (hry2 : ry < 2 ^ 31)
    (hq : ry - 1 = (N2 - 1) * q) (j : ℕ) (hj : j < N2) :
    chunkSampleRaw N1 N2 tL (some tR) (some tU) (some tUR) 1 ((j : ℚ) / ((N2 : ℚ) - 1))
      (N1 - 1) j =
      if j = N2 - 1 then (tUR.gc 0 0 : ℚ) else (tR.gc 0 ((j * q : ℕ) : ℤ) : ℚ) := by
  have hN2Q : (0 : ℚ) < (N2 : ℚ) - 1 := by
    have : (2 : ℚ) ≤ (N2 : ℚ) := by exact_mod_cast hN2
    linarith
  have hv0 : (0 : ℚ) ≤ (j : ℚ) / ((N2 : ℚ) - 1) := by positivity
  have hv1 : (j : ℚ) / ((N2 : ℚ) - 1) ≤ 1 := by
    rw [div_le_one hN2Q]
    have hle : (j : ℚ) ≤ ((N2 - 1 : ℕ) : ℚ) := by exact_mod_cast Nat.le_sub_one_of_lt hj
    calc (j : ℚ) ≤ ((N2 - 1 : ℕ) : ℚ) := hle
      _ = (N2 : ℚ) - 1 := by push_cast [Nat.cast_sub (by omega : 1 ≤ N2)]; ring
  have hvmain : ((j : ℚ) / ((N2 : ℚ) - 1)) * ((ry - 1 : ℕ) : ℚ) = ((j * q : ℕ) : ℚ) := by
    rw [hq]
    push_cast [Nat.cast_sub (by omega : 1 ≤ N2)]
    field_simp
    ring
  unfold chunkSampleRaw
  dsimp only
  rw [rclamp_unit (by norm_num : (0 : ℚ) ≤ 1) (le_refl (1 : ℚ)), rclamp_unit hv0 hv1]
  by_cases hcorner : j = N2 - 1
  · rw [if_pos ⟨rfl, hcorner⟩, if_pos hcorner]
  · rw [if_neg (fun h => hcorner h.2), if_pos rfl, if_neg hcorner]
    have htz : i32ofU32 (tL.res_y - 1) = ((ry - 1 : ℕ) : ℤ) := by
      rw [hL]
      exact i32ofU32_small (by omega)
    rw [htz]
    have hcast : (((ry - 1 : ℕ) : ℤ) : ℚ) = ((ry - 1 : ℕ) : ℚ) := by push_cast; ring
    rw [hcast, hvmain, rustRound_natCast]

theorem chunkSampleRaw_first_col (N1 N2 : ℕ) (hN1 : 2 ≤ N1) (hN2 : 2 ≤ N2)
    (tR tUR : Tile16) (rR urR : Option Tile16) (ry q : ℕ) (hR : tR.res_y = ry)
    (hry2 : ry < 2 ^ 31) (hq : ry - 1 = (N2 - 1) * q) (j : ℕ) (hj : j < N2) :
    chunkSampleRaw N1 N2 tR rR (some tUR) urR 0 ((j : ℚ) / ((N2 : ℚ) - 1)) 0 j =
      if j = N2 - 1 then (tUR.gc 0 0 : ℚ) else (tR.gc 0 ((j * q : ℕ) : ℤ) : ℚ) := by
  have hN2Q : (0 : ℚ) < (N2 : ℚ) - 1 := by
    have : (2 : ℚ) ≤ (N2 : ℚ) := by exact_mod_cast hN2
    linarith
  have hv0 : (0 : ℚ) ≤ (j : ℚ) / ((N2 : ℚ) - 1) := by positivity
  have hv1 : (j : ℚ) / ((N2 : ℚ) - 1) ≤ 1 := by
    rw [div_le_one hN2Q]
    have hle : (j : ℚ) ≤ ((N2 - 1 : ℕ) : ℚ) := by exact_mod_cast Nat.le_sub_one_of_lt hj
    calc (j : ℚ) ≤ ((N2 - 1 : ℕ) : ℚ) := hle
      _ = (N2 : ℚ) - 1 := by push_cast [Nat.cast_sub (by omega : 1 ≤ N2)]; ring
  have hvmain : ((j : ℚ) / ((N2 : ℚ) - 1)) * ((ry - 1 : ℕ) : ℚ) = ((j * q : ℕ) : ℚ) := by
    rw [hq]
    push_cast [Nat.cast_sub (by omega : 1 ≤ N2)]
    field_simp
    ring
  have htz : i32ofU32 (tR.res_y - 1) = ((ry - 1 : ℕ) : ℤ) := by
    rw [hR]
    exact i32ofU32_small (by omega)
  have hcast : (((ry - 1 : ℕ) : ℤ) : ℚ) = ((ry - 1 : ℕ) : ℚ) := by push_cast; ring
  have hne1 : ¬(0 = N1 - 1) := by omega
  unfold chunkSampleRaw
  dsimp only
  rw [rclamp_unit (le_refl (0 : ℚ)) zero_le_one, rclamp_unit hv0 hv1]
  rw [if_neg (fun h => hne1 h.1), if_neg hne1]
  rw [htz, hcast, hvmain]
  by_cases hcorner : j = N2 - 1
  · rw [if_pos hcorner, if_pos hcorner]
    rw [zero_mul, rustRound_zero]
  · rw [if_neg hcorner, if_neg hcorner]
    rw [zero_mul, Int.floor_zero, Int.floor_natCast]
    push_cast
    ring

/-! Claim C2. -/

/-- Claim C2, counterexample: two horizontally adjacent chunks both built at
the Far tier (33×33 grid) from 2×2 tiles, with the left chunk's
neighbor-right tile present (it is the right chunk's own tile). At row
`j = 16` the shared-edge world point is `(256, 128)`; the left chunk's
rightmost-column vertex samples the neighbor tile's first column at the
*nearest* row (`round(0.5) = 1`, raw 65535, height 600), while the right
chunk's leftmost-column vertex *bilinearly blends* rows 0 and 1
(raw 32767.5, height 300): the heights differ at the same world point
because the 33-vertex grid does not align with the 2-texel tile
(32 does not divide 1). -/
theorem seam_mismatch_cex :
    (build_mesh_or_fallback 0 0 LodLevel.Far.grid_res seamData seamTileL (some seamTileR)
      none none (fun v => v)).positions.get? 560 = some (256, 600, 128) ∧
    (build_mesh_or_fallback 1 0 LodLevel.Far.grid_res seamData seamTileR none none none
      (fun v => v)).positions.get? 528 = some (256, 300, 128) ∧
    (600 : ℚ) ≠ 300 := by
  refine ⟨?_, ?_, by norm_num⟩
  · have h1 := build_positions_get 0 0 LodLevel.Far.grid_res seamData seamTileL
      (some seamTileR) none none (fun v => v) 32 16 (by decide) (by decide)
    norm_num [LodLevel.grid_res] at h1
    simp only [LodLevel.grid_res, List.get?_eq_getElem?]
    rw [h1]
    norm_num [chunkVertexPos, chunkSampleH, chunkSampleRaw, rclamp, i32ofU32, i32wrap,
      rustRound, Tile16.gc, Tile16.get_clamped, chunk_world_aabb, chunk_origin_world,
      seamData, seamTileL, seamTileR, min_def, max_def]
  · have h1 := build_positions_get 1 0 LodLevel.Far.grid_res seamData seamTileR none none none
      (fun v => v) 0 16 (by decide) (by decide)
    norm_num [LodLevel.grid_res] at h1
    simp only [LodLevel.grid_res, List.get?_eq_getElem?]
    rw [h1]
    norm_num [chunkVertexPos, chunkSampleH, chunkSampleRaw, rclamp, i32ofU32, i32wrap,
      rustRound, Tile16.gc, Tile16.get_clamped, chunk_world_aabb, chunk_origin_world,
      seamData, seamTileR, min_def, max_def]

/-- Claim C2, amended: for two horizontally adjacent chunks built at the same
LOD tier from tiles of a common row count `ry` — with the left chunk's
neighbor-right tile being the right chunk's own tile, the left chunk's
neighbor-up-right tile being the right chunk's neighbor-up tile, and the
grid aligned to the texels (the per-axis vertex count minus one divides
`ry - 1`) — every mesh vertex on the left chunk's rightmost column coincides
(same world position, hence same height at the same world point) with the
right chunk's mesh vertex on its leftmost column at the same row: the left
chunk samples the right neighbor tile's first column at the shared edge,
which under the alignment hypothesis lands exactly on the texels the right
chunk's bilinear sampler hits. Without the divisibility hypothesis the
nearest-texel edge rule and the interior bilinear rule disagree, as the
counterexample shows. -/
theorem seam_heights_align (lod : LodLevel) (data : HeightmapData)
    (tL tR tU tUR : Tile16) (rR urR : Option Tile16)
    (normalize : ℚ × ℚ × ℚ → ℚ × ℚ × ℚ) (cx cz : ℤ) (ry : ℕ)
    (hL : tL.res_y = ry) (hR : tR.res_y = ry) (hry2 : ry < 2 ^ 31)
    (hdiv : (max lod.grid_res.2 2 - 1) ∣ (ry - 1)) (j : ℕ)
    (hj : j < max lod.grid_res.2 2) :
    ∃ p : ℚ × ℚ × ℚ,
      (build_mesh_or_fallback cx cz lod.grid_res data tL (some tR) (some tU) (some tUR)
          normalize).positions.get?
        (j * max lod.grid_res.1 2 + (max lod.grid_res.1 2 - 1)) = some p ∧
      (build_mesh_or_fallback (cx + 1) cz lod.grid_res data tR rR (some tUR) urR
          normalize).positions.get? (j * max lod.grid_res.1 2) = some p := by
  obtain ⟨q, hq⟩ := hdiv
  have hN1 : 2 ≤ max lod.grid_res.1 2 := le_max_right _ 2
  have hN2 : 2 ≤ max lod.grid_res.2 2 := le_max_right _ 2
  have hidx0 : j * max lod.grid_res.1 2 = j * max lod.grid_res.1 2 + 0 := by omega
  rw [build_positions_get cx cz lod.grid_res data tL (some tR) (some tU) (some tUR) normalize
    (max lod.grid_res.1 2 - 1) j (by omega) hj]
  rw [hidx0, build_positions_get (cx + 1) cz lod.grid_res data tR rR (some tUR) urR normalize
    0 j (by omega) hj]
  refine ⟨_, rfl, ?_⟩
  rw [Option.some.injEq]
  set N1 := max lod.grid_res.1 2
  set N2 := max lod.grid_res.2 2
  have hN1Q : ((N1 - 1 : ℕ) : ℚ) = (N1 : ℚ) - 1 := by
    push_cast [Nat.cast_sub (by omega : 1 ≤ N1)]
    ring
  have hN1ne : ((N1 : ℚ) - 1) ≠ 0 := by
    have : (2 : ℚ) ≤ (N1 : ℚ) := by exact_mod_cast hN1
    linarith
  have hu1 : ((N1 - 1 : ℕ) : ℚ) / ((N1 : ℚ) - 1) = 1 := by
    rw [hN1Q, div_self hN1ne]
  have hu0 : ((0 : ℕ) : ℚ) / ((N1 : ℚ) - 1) = 0 := by
    simp
  unfold chunkVertexPos
  dsimp only
  rw [hu1, hu0]
  unfold chunkSampleH
  dsimp only
  rw [chunkSampleRaw_left_edge N1 N2 hN2 tL tR tU tUR ry q hL hry2 hq j hj]
  rw [chunkSampleRaw_first_col N1 N2 hN1 hN2 tR tUR rR urR ry q hR hry2 hq j hj]
  unfold chunk_world_aabb chunk_origin_world
  dsimp only
  refine Prod.ext ?_ (Prod.ext ?_ ?_)
  · push_cast
    ring
  · rfl
  · rfl

/-- Witness for claim C2's amended theorem: two adjacent chunks at the Far
tier built from 1×33 tiles (rows aligned: 32 divides 32) share their edge
vertex at row 5. -/
theorem seam_heights_align_witness :
    alignedTile.res_y = 33 ∧ (33 : ℕ) < 2 ^ 31 ∧
    (max (LodLevel.Far.grid_res).2 2 - 1) ∣ (33 - 1) ∧ (5 : ℕ) < max (LodLevel.Far.grid_res).2 2 ∧
    ∃ p : ℚ × ℚ × ℚ,
      (build_mesh_or_fallback 0 0 LodLevel.Far.grid_res seamData alignedTile
          (some alignedTile) (some alignedTile) (some alignedTile)
          (fun v => v)).positions.get?
        (5 * max (LodLevel.Far.grid_res).1 2 + (max (LodLevel.Far.grid_res).1 2 - 1)) = some p ∧
      (build_mesh_or_fallback (0 + 1) 0 LodLevel.Far.grid_res seamData alignedTile none
          (some alignedTile) none (fun v => v)).positions.get?
        (5 * max (LodLevel.Far.grid_res).1 2) = some p := by
  refine ⟨rfl, by norm_num, by decide, by decide, ?_⟩
  exact seam_heights_align LodLevel.Far seamData alignedTile alignedTile alignedTile
    alignedTile none none (fun v => v) 0 0 33 rfl rfl (by norm_num) (by decide) 5 (by decide)
